import Mathlib

/-!
Verification of the track splitter plugin (src/track_splitter_plugin.py)
against its natural-language specification.

Shallow embedding notes.

* Coordinates, widths and separations are the layout's fixed-precision
  integer units (KiCad internal units); they are embedded as `Int`.  The
  settings are taken after the `pcbnew.FromMM` conversion, i.e. already in
  integer units, matching the spec's data model where `Length` is a
  fixed-precision integer.
* The Python code computes `length`, the unit vector, the per-track
  offsets and the rounded shifts with IEEE doubles.  Those intermediate
  values are embedded as exact real numbers; `round` in Python 3 rounds to
  the nearest integer with ties to even, embedded as `round_half_even`.
* The plugin mutates the board in place (`board.Add`, `group.AddItem`,
  `board.Remove`).  The board is embedded as an explicit state value
  (a list of tracks plus a list of groups, each group being the list of
  its member tracks) and each mutation by its effect on that state.
* Python raises an uncaught `ZeroDivisionError` at
  `unit_dx = direction.x / length` exactly when `length == 0.0`, i.e. when
  the segment's two endpoints coincide.  That exception is embedded as an
  explicit branch producing `Except.error` carrying the board as mutated
  so far; the error propagates out of `split_tracks`, aborting the batch.
-/

/-- A point of the layout, in fixed-precision integer units. -/
structure Point where
  x : Int
  y : Int
deriving DecidableEq

/-- One straight track segment, as read and written through the pcbnew
interface: `GetStart`, `GetEnd`, `GetLayer`, `GetNetCode`, `GetNetname`,
`SetWidth`.  The source field `end` is spelled `stop` (`end` is a Lean
keyword).  A track's net code determines its net name, so both are carried
and both are copied when a new track is put on the same net. -/
structure Track where
  start : Point
  stop : Point
  layer : Int
  netCode : Int
  netName : String
  width : Int
deriving DecidableEq

/-- The board state the plugin mutates: its tracks and its groups, a group
being the list of tracks added to it with `AddItem`. -/
structure Board where
  tracks : List Track
  groups : List (List Track)
deriving DecidableEq

/-- The dialog settings after unit conversion: `settings` dict of the
source, with `split_width` and `internal_sep` already converted by
`pcbnew.FromMM` to integer units. -/
structure Settings where
  netName : String
  splitWidthIU : Int
  internalSepIU : Int
  numSplits : Int
deriving DecidableEq

/-- Python 3 `round` on a float: nearest integer, ties to even.  The
source applies it to every shift component (`int(round(...))`). -/
noncomputable def round_half_even (x : ℝ) : ℤ :=
  if Int.fract x = 1 / 2 then (if Even ⌊x⌋ then ⌊x⌋ else ⌊x⌋ + 1) else round x

/-- Source line 159: `length = (direction.x**2 + direction.y**2) ** 0.5`. -/
noncomputable def trackLength (t : Track) : ℝ :=
  Real.sqrt (((t.stop.x - t.start.x : Int) : ℝ) ^ 2 + ((t.stop.y - t.start.y : Int) : ℝ) ^ 2)

/-- Source line 160: `unit_dx = direction.x / length`. -/
noncomputable def unit_dx (t : Track) : ℝ :=
  ((t.stop.x - t.start.x : Int) : ℝ) / trackLength t

/-- Source line 161: `unit_dy = direction.y / length`. -/
noncomputable def unit_dy (t : Track) : ℝ :=
  ((t.stop.y - t.start.y : Int) : ℝ) / trackLength t

/-- Source line 162: `shift_vec_x = -unit_dy`. -/
noncomputable def shift_vec_x (t : Track) : ℝ := -unit_dy t

/-- Source line 163: `shift_vec_y = unit_dx`. -/
noncomputable def shift_vec_y (t : Track) : ℝ := unit_dx t

/-- Source line 166: the perpendicular offset of replacement number `i`,
`offset_iu = -group_width_iu / 2 + i * (split_width_iu + internal_sep_iu)
+ (split_width_iu / 2)`, computed in floats, embedded exactly. -/
noncomputable def offset_iu (gw sw sep : Int) (i : ℕ) : ℝ :=
  -(gw : ℝ) / 2 + (i : ℝ) * ((sw : ℝ) + (sep : ℝ)) + (sw : ℝ) / 2

/-- Source lines 165 to 180, the inner loop: the list of the `num_splits`
replacement tracks created for one original track `t`, in loop order.
Track `i` is `t` translated by the componentwise-rounded shift
`(shift_vec_x * offset_iu, shift_vec_y * offset_iu)`, with
`width = split_width_iu` and the layer and net of the original. -/
noncomputable def newTracks (gw sw sep : Int) (n : ℕ) (t : Track) : List Track :=
  (List.range n).map fun i =>
    let sx := round_half_even (shift_vec_x t * offset_iu gw sw sep i)
    let sy := round_half_even (shift_vec_y t * offset_iu gw sw sep i)
    { start := ⟨t.start.x + sx, t.start.y + sy⟩
      stop := ⟨t.stop.x + sx, t.stop.y + sy⟩
      layer := t.layer
      netCode := t.netCode
      netName := t.netName
      width := sw }

/-- Source lines 149 to 182, the body of the per-track loop: a new group
is added to the board first (line 156); then the direction is computed and
divided by the length, which raises `ZeroDivisionError` when the segment
is degenerate (the error value carries the board with the group already
added); otherwise the `num_splits` new tracks are added to the board and
to the group and the original track is removed. -/
noncomputable def processTrack (gw sw sep : Int) (n : ℕ) (b : Board) (t : Track) :
    Except Board Board :=
  let b1 : Board := { b with groups := b.groups ++ [[]] }
  if (t.stop.x - t.start.x = 0 ∧ t.stop.y - t.start.y = 0) then
    .error b1
  else
    let ts := newTracks gw sw sep n t
    .ok { tracks := (b1.tracks ++ ts).erase t, groups := b.groups ++ [ts] }

/-- Stage 2 of `split_tracks`: process each selected track in order,
threading the board.  An exception from any track propagates, aborting
the loop with the board as mutated so far.  The second component counts
the new tracks created (`new_tracks_count`). -/
noncomputable def runBatch (gw sw sep : Int) (n : ℕ) :
    Board → List Track → Except Board (Board × ℕ)
  | b, [] => .ok (b, 0)
  | b, t :: rest =>
    match processTrack gw sw sep n b t with
    | .error b1 => .error b1
    | .ok b1 =>
      match runBatch gw sw sep n b1 rest with
      | .error b2 => .error b2
      | .ok (b2, c) => .ok (b2, c + n)

/-- Stage 1 of `split_tracks` (lines 138 to 141): collect the tracks whose
net name equals the chosen one, in board enumeration order. -/
def selectTracks (ts : List Track) (netName : String) : List Track :=
  ts.filter fun t => t.netName == netName

/-- The observable outcome of one `split_tracks` run, with the final board
state: the configuration error box for `num_splits < 1` (line 129), the
informational box for an empty selection (line 144), an uncaught
`ZeroDivisionError` aborting the run and leaving the board as mutated so
far, or normal completion with the counts of the summary box. -/
inductive Outcome where
  | configError (b : Board)
  | noMatch (b : Board)
  | crashed (b : Board)
  | finished (b : Board) (processed : ℕ) (created : ℕ)
deriving DecidableEq

/-- True exactly on the normal-completion outcome. -/
def Outcome.isFinished : Outcome → Bool
  | .finished _ _ _ => true
  | _ => false

/-- Source lines 122 to 192, `split_tracks`: the whole per-run pipeline.
The only validation is `num_splits < 1`; the group width is
`split_width_iu * num_splits + internal_sep_iu * (num_splits - 1)`
(line 135); stage 1 selects by net name; an empty selection returns with
an informational box; stage 2 processes every selected track. -/
noncomputable def split_tracks (b : Board) (s : Settings) : Outcome :=
  if s.numSplits < 1 then .configError b
  else
    let gw := s.splitWidthIU * s.numSplits + s.internalSepIU * (s.numSplits - 1)
    let toProcess := selectTracks b.tracks s.netName
    if toProcess.isEmpty then .noMatch b
    else
      match runBatch gw s.splitWidthIU s.internalSepIU s.numSplits.toNat b toProcess with
      | .error b1 => .crashed b1
      | .ok (b1, c) => .finished b1 toProcess.length c

/-! Spec-side definitions, written from the words of section 4.2 of the
specification, for comparison with the code-side definitions above. -/

/-- Spec step 4: `groupWidth = splitCount * splitWidth +
(splitCount - 1) * internalSeparation`. -/
def spec_groupWidth (sw sep n : Int) : Int :=
  n * sw + (n - 1) * sep

/-- Spec step 5: `offset_i = -groupWidth/2 + i * (splitWidth +
internalSeparation) + splitWidth/2`. -/
noncomputable def spec_offset (sw sep n : Int) (i : ℕ) : ℝ :=
  -((spec_groupWidth sw sep n : Int) : ℝ) / 2 + (i : ℝ) * ((sw : ℝ) + (sep : ℝ)) + (sw : ℝ) / 2

/-- Spec step 3: the fixed rotational sense `(dx, dy) -> (-dy, dx)`. -/
noncomputable def rotate90 (v : ℝ × ℝ) : ℝ × ℝ := (-v.2, v.1)

/-- Spec steps 1 and 2: the unit-length vector along the original segment,
`(end - start) / |end - start|`. -/
noncomputable def spec_unit (t : Track) : ℝ × ℝ :=
  (((t.stop.x - t.start.x : Int) : ℝ) / trackLength t,
   ((t.stop.y - t.start.y : Int) : ℝ) / trackLength t)

/-- `z` is a nearest integer to `x` (the rounding guarantee of spec
step 5: componentwise rounding to the nearest integer unit). -/
def isNearestInt (z : ℤ) (x : ℝ) : Prop := |x - (z : ℝ)| ≤ 1 / 2

/-- The board state carried by any outcome. -/
def Outcome.board : Outcome → Board
  | .configError b => b
  | .noMatch b => b
  | .crashed b => b
  | .finished b _ _ => b

/-! Concrete fixtures used by witnesses and counterexamples. -/

/-- A degenerate track, both endpoints at the origin, on net N. -/
def degTrack : Track :=
  { start := ⟨0, 0⟩, stop := ⟨0, 0⟩, layer := 0, netCode := 1, netName := "N", width := 250000 }

/-- A horizontal track from the origin to x = 1000, on net N. -/
def horizTrack : Track :=
  { start := ⟨0, 0⟩, stop := ⟨1000, 0⟩, layer := 0, netCode := 1, netName := "N", width := 250000 }

/-- The settings of the worked example of spec section 8: width 140000,
separation 20000, two splits, targeting net N. -/
def exampleSettings : Settings :=
  { netName := "N", splitWidthIU := 140000, internalSepIU := 20000, numSplits := 2 }

/-! Helper lemmas. -/

/-- Ties-to-even rounding is a nearest-integer rounding. -/
theorem abs_sub_round_half_even (x : ℝ) : |x - (round_half_even x : ℝ)| ≤ 1 / 2 := by
  unfold round_half_even
  by_cases h : Int.fract x = 1 / 2
  · rw [if_pos h]
    have hx : x - (⌊x⌋ : ℝ) = 1 / 2 := (Int.self_sub_floor x).trans h
    by_cases he : Even ⌊x⌋
    · rw [if_pos he, hx, abs_of_nonneg]
      all_goals norm_num
    · rw [if_neg he]
      push_cast
      have hx1 : x - ((⌊x⌋ : ℝ) + 1) = -(1 / 2) := by linarith
      rw [hx1, abs_neg, abs_of_nonneg]
      all_goals norm_num
  · rw [if_neg h]
    exact abs_sub_round x

/-- Rounding an integer value gives it back. -/
theorem round_half_even_intCast (z : ℤ) : round_half_even (z : ℝ) = z := by
  unfold round_half_even
  have h : Int.fract (z : ℝ) = 0 := Int.fract_intCast z
  rw [h]
  norm_num

/-! Claim theorems. -/

/-- C8: for every settings value with numSplits smaller than 1 (zero or
negative), split_tracks returns the configuration error immediately with
the board unchanged: no geometry is attempted and the whole batch is
aborted rather than handled per segment. -/
theorem invalid_split_count_aborts (b : Board) (s : Settings) (h : s.numSplits < 1) :
    split_tracks b s = .configError b := by
  unfold split_tracks
  rw [if_pos h]

theorem invalid_split_count_aborts_witness :
    ({ netName := "N", splitWidthIU := 140000, internalSepIU := 20000,
       numSplits := 0 } : Settings).numSplits < 1
    ∧ split_tracks ⟨[horizTrack], []⟩
        { netName := "N", splitWidthIU := 140000, internalSepIU := 20000, numSplits := 0 }
      = .configError ⟨[horizTrack], []⟩ :=
  ⟨by decide, invalid_split_count_aborts _ _ (by decide)⟩

/-- C9: selectTracks returns exactly the order-preserving subsequence of
the input whose net name equals the given name (it is a sublist, every
element of it matches, and every matching sublist of the input is a
sublist of it), it mutates nothing, and when the selection is empty the
driver returns the informational no-match outcome with the board
unchanged, not a fatal error. -/
theorem selector_is_net_filter (b : Board) (s : Settings)
    (hn : 1 ≤ s.numSplits) (hempty : selectTracks b.tracks s.netName = []) :
    (∀ ts name, List.Sublist (selectTracks ts name) ts
      ∧ (∀ t ∈ selectTracks ts name, t.netName = name)
      ∧ ∀ l, List.Sublist l ts → (∀ t ∈ l, t.netName = name) →
          List.Sublist l (selectTracks ts name))
    ∧ split_tracks b s = .noMatch b := by
  constructor
  · intro ts name
    refine ⟨List.filter_sublist ts, ?_, ?_⟩
    · intro t ht
      have := List.of_mem_filter ht
      simpa using this
    · intro l hl hall
      have hself : l.filter (fun t => t.netName == name) = l := by
        apply List.filter_eq_self.2
        intro t ht
        simpa using hall t ht
      have := hl.filter (fun t => t.netName == name)
      rw [hself] at this
      exact this
  · unfold split_tracks
    rw [if_neg (by omega : ¬s.numSplits < 1)]
    simp [hempty]

theorem selector_is_net_filter_witness :
    1 ≤ ({ netName := "B", splitWidthIU := 140000, internalSepIU := 20000,
           numSplits := 2 } : Settings).numSplits
    ∧ selectTracks (⟨[horizTrack], []⟩ : Board).tracks
        ({ netName := "B", splitWidthIU := 140000, internalSepIU := 20000,
           numSplits := 2 } : Settings).netName = []
    ∧ ((∀ ts name, List.Sublist (selectTracks ts name) ts
        ∧ (∀ t ∈ selectTracks ts name, t.netName = name)
        ∧ ∀ l, List.Sublist l ts → (∀ t ∈ l, t.netName = name) →
            List.Sublist l (selectTracks ts name))
      ∧ split_tracks ⟨[horizTrack], []⟩
          { netName := "B", splitWidthIU := 140000, internalSepIU := 20000, numSplits := 2 }
        = .noMatch ⟨[horizTrack], []⟩) :=
  ⟨by decide, by decide, selector_is_net_filter _ _ (by decide) (by decide)⟩

/-- C1: the claim says a zero-length segment fails with a clean
DegenerateSegment error, is skipped, and the rest of the batch is still
processed.  The code has no such guard: it divides by the zero length,
raising ZeroDivisionError.  Evaluated at the failing input, a batch of a
degenerate track followed by a normal track on the same net crashes with
the empty group already on the board and the normal track never
processed (both originals still present, no replacements). -/
theorem degenerate_segment_crashes_batch :
    split_tracks ⟨[degTrack, horizTrack], []⟩ exampleSettings
      = .crashed ⟨[degTrack, horizTrack], [[]]⟩ := by
  rfl

/-- C2 counterexample: with splitWidth = -1 (which the claim says must
fail with InvalidWidth before any geometry, with no side effects), the
run completes normally and a group has been created on the board. -/
theorem negative_width_not_rejected :
    (split_tracks ⟨[horizTrack], []⟩
      { netName := "N", splitWidthIU := -1, internalSepIU := 0, numSplits := 1 }).isFinished
      = true
    ∧ (split_tracks ⟨[horizTrack], []⟩
        { netName := "N", splitWidthIU := -1, internalSepIU := 0, numSplits := 1 }).board.groups.length
      = 1 :=
  ⟨rfl, rfl⟩

/-- C2 amended: the only configuration value split_tracks validates is
numSplits; splitWidth and internalSeparation are never checked, so any
settings with numSplits at least 1 get past configuration checking
(the outcome is never the configuration error), whatever splitWidth and
internalSeparation are. -/
theorem no_width_or_separation_validation (b : Board) (s : Settings) (h : 1 ≤ s.numSplits) :
    ∀ b1, split_tracks b s ≠ .configError b1 := by
  intro b1
  unfold split_tracks
  rw [if_neg (by omega : ¬s.numSplits < 1)]
  dsimp only
  split
  · simp
  · split
    · simp
    · simp

theorem no_width_or_separation_validation_witness :
    1 ≤ ({ netName := "N", splitWidthIU := -1, internalSepIU := -7,
           numSplits := 1 } : Settings).numSplits
    ∧ ∀ b1, split_tracks ⟨[horizTrack], []⟩
        { netName := "N", splitWidthIU := -1, internalSepIU := -7, numSplits := 1 }
        ≠ .configError b1 :=
  ⟨by decide, no_width_or_separation_validation _ _ (by decide)⟩

/-- C3 counterexample: the claim says that when processing one segment
fails, the segment additions, the group creation and the removal are
applied together or not at all.  Evaluated on a batch of one degenerate
track, processing fails, the original is untouched and no segments were
added, yet the board has changed: the empty group created before the
geometry remains, so the group creation was applied alone. -/
theorem group_creation_not_rolled_back :
    split_tracks ⟨[degTrack], []⟩ exampleSettings = .crashed ⟨[degTrack], [[]]⟩
    ∧ (⟨[degTrack], [[]]⟩ : Board) ≠ (⟨[degTrack], []⟩ : Board) :=
  ⟨rfl, by decide⟩

/-- C3 amended: when processing one segment fails (the only internal
failure is the degenerate-segment division by zero), the original segment
is left in place and no replacement segments are added, but the new group,
added to the board before the geometry is computed, is not rolled back:
the failed board state is exactly the input board plus one empty group. -/
theorem failed_segment_keeps_original_but_empty_group (gw sw sep : Int) (n : ℕ)
    (b : Board) (t : Track)
    (hdeg : t.stop.x - t.start.x = 0 ∧ t.stop.y - t.start.y = 0) :
    processTrack gw sw sep n b t = .error { b with groups := b.groups ++ [[]] } := by
  unfold processTrack
  rw [if_pos hdeg]

theorem failed_segment_keeps_original_but_empty_group_witness :
    (degTrack.stop.x - degTrack.start.x = 0 ∧ degTrack.stop.y - degTrack.start.y = 0)
    ∧ processTrack 300000 140000 20000 2 ⟨[degTrack], []⟩ degTrack
      = .error { tracks := [degTrack], groups := [[]] } :=
  ⟨by decide, failed_segment_keeps_original_but_empty_group _ _ _ _ _ _ (by decide)⟩

/-- Twice the sum of the first n naturals, cast to the reals. -/
theorem sum_range_cast (n : ℕ) :
    (∑ j in Finset.range n, (j : ℝ)) * 2 = (n : ℝ) * ((n : ℝ) - 1) := by
  induction n with
  | zero => simp
  | succ m ih =>
    rw [Finset.sum_range_succ]
    push_cast
    push_cast at ih
    nlinarith [ih]

/-- C6: with the group width as split_tracks computes it, the perpendicular
offsets of a cluster are symmetric about zero, offset i plus offset
(splitCount - 1 - i) is exactly zero for every i, and their
equally-weighted sum is exactly zero, so the bus is centered on the
original axis (exactness implies the one-unit tolerance of the claim). -/
theorem offsets_centered (sw sep : Int) (n i : ℕ)
    (_hsw : 0 < sw) (_hsep : 0 ≤ sep) (hn : 1 ≤ n) (hi : i < n) :
    offset_iu (sw * (n : Int) + sep * ((n : Int) - 1)) sw sep i
      + offset_iu (sw * (n : Int) + sep * ((n : Int) - 1)) sw sep (n - 1 - i) = 0
    ∧ ∑ j in Finset.range n, offset_iu (sw * (n : Int) + sep * ((n : Int) - 1)) sw sep j = 0 := by
  constructor
  · unfold offset_iu
    have hc : ((n - 1 - i : ℕ) : ℝ) = (n : ℝ) - 1 - (i : ℝ) := by
      rw [Nat.cast_sub (by omega : i ≤ n - 1), Nat.cast_sub (by omega : 1 ≤ n)]
      push_cast
      ring
    rw [hc]
    push_cast
    ring
  · have hS := sum_range_cast n
    have h1 : ∑ j in Finset.range n, offset_iu (sw * (n : Int) + sep * ((n : Int) - 1)) sw sep j
        = (∑ j in Finset.range n, (j : ℝ)) * ((sw : ℝ) + (sep : ℝ))
          + (n : ℝ) * (-(((sw * (n : Int) + sep * ((n : Int) - 1) : Int)) : ℝ) / 2 + (sw : ℝ) / 2) := by
      unfold offset_iu
      rw [Finset.sum_add_distrib, Finset.sum_add_distrib, Finset.sum_const, Finset.sum_const,
        Finset.card_range, ← Finset.sum_mul, nsmul_eq_mul, nsmul_eq_mul]
      ring
    rw [h1]
    push_cast
    linear_combination (((sw : ℝ) + (sep : ℝ)) / 2) * hS

theorem offsets_centered_witness :
    ((0 : Int) < 140000 ∧ (0 : Int) ≤ 20000 ∧ 1 ≤ 2 ∧ 0 < 2)
    ∧ (offset_iu (140000 * ((2 : ℕ) : Int) + 20000 * (((2 : ℕ) : Int) - 1)) 140000 20000 0
        + offset_iu (140000 * ((2 : ℕ) : Int) + 20000 * (((2 : ℕ) : Int) - 1)) 140000 20000 (2 - 1 - 0) = 0
      ∧ ∑ j in Finset.range 2,
          offset_iu (140000 * ((2 : ℕ) : Int) + 20000 * (((2 : ℕ) : Int) - 1)) 140000 20000 j = 0) :=
  ⟨⟨by decide, by decide, by decide, by decide⟩,
   offsets_centered 140000 20000 2 0 (by decide) (by decide) (by decide) (by decide)⟩

/-- C7: with the group width as split_tracks computes it and a valid
configuration (positive width, nonnegative separation), the perpendicular
offsets strictly increase with the cluster index, and the perpendicular
used is the one fixed rotational sense, the rotation (dx, dy) to
(-dy, dx) of the unit direction vector, for every segment. -/
theorem cluster_ordered_by_offset (sw sep : Int) (n i j : ℕ) (t : Track)
    (hsw : 0 < sw) (hsep : 0 ≤ sep) (hij : i < j) (_hj : j < n) :
    offset_iu (sw * (n : Int) + sep * ((n : Int) - 1)) sw sep i
      < offset_iu (sw * (n : Int) + sep * ((n : Int) - 1)) sw sep j
    ∧ (shift_vec_x t, shift_vec_y t) = rotate90 (spec_unit t) := by
  constructor
  · unfold offset_iu
    have hij' : (i : ℝ) < (j : ℝ) := by exact_mod_cast hij
    have hsw' : (0 : ℝ) < (sw : ℝ) := by exact_mod_cast hsw
    have hsep' : (0 : ℝ) ≤ (sep : ℝ) := by exact_mod_cast hsep
    have hmul := mul_lt_mul_of_pos_right hij' (by linarith : (0 : ℝ) < (sw : ℝ) + (sep : ℝ))
    linarith
  · unfold shift_vec_x shift_vec_y rotate90 spec_unit unit_dx unit_dy
    rfl

theorem cluster_ordered_by_offset_witness :
    ((0 : Int) < 140000 ∧ (0 : Int) ≤ 20000 ∧ 0 < 1 ∧ 1 < 2)
    ∧ (offset_iu (140000 * ((2 : ℕ) : Int) + 20000 * (((2 : ℕ) : Int) - 1)) 140000 20000 0
        < offset_iu (140000 * ((2 : ℕ) : Int) + 20000 * (((2 : ℕ) : Int) - 1)) 140000 20000 1
      ∧ (shift_vec_x horizTrack, shift_vec_y horizTrack) = rotate90 (spec_unit horizTrack)) :=
  ⟨⟨by decide, by decide, by decide, by decide⟩,
   cluster_ordered_by_offset 140000 20000 2 0 1 horizTrack (by decide) (by decide) (by decide) (by decide)⟩

/-- C4: for a valid configuration and a non-degenerate segment, the
replacement geometry follows the spec algorithm: the group width used by
the code equals splitCount times splitWidth plus (splitCount - 1) times
internalSeparation; the code offset equals the spec offset formula; the
perpendicular is the fixed rotation (dx, dy) to (-dy, dx) of the unit
direction vector; and replacement i translates both endpoints of the
original by the componentwise rounding of perp times offset i, the
rounding being to a nearest integer unit. -/
theorem splitter_follows_spec_geometry (sw sep : Int) (n : ℕ) (t : Track) (i : ℕ)
    (_hn : 1 ≤ n) (_hsw : 0 < sw) (_hsep : 0 ≤ sep)
    (_hnd : ¬(t.stop.x - t.start.x = 0 ∧ t.stop.y - t.start.y = 0)) (hi : i < n) :
    sw * (n : Int) + sep * ((n : Int) - 1) = spec_groupWidth sw sep (n : Int)
    ∧ offset_iu (sw * (n : Int) + sep * ((n : Int) - 1)) sw sep i = spec_offset sw sep (n : Int) i
    ∧ (shift_vec_x t, shift_vec_y t) = rotate90 (spec_unit t)
    ∧ (newTracks (sw * (n : Int) + sep * ((n : Int) - 1)) sw sep n t)[i]?
      = some { start := ⟨t.start.x + round_half_even ((rotate90 (spec_unit t)).1 * spec_offset sw sep (n : Int) i),
                        t.start.y + round_half_even ((rotate90 (spec_unit t)).2 * spec_offset sw sep (n : Int) i)⟩,
               stop := ⟨t.stop.x + round_half_even ((rotate90 (spec_unit t)).1 * spec_offset sw sep (n : Int) i),
                       t.stop.y + round_half_even ((rotate90 (spec_unit t)).2 * spec_offset sw sep (n : Int) i)⟩,
               layer := t.layer, netCode := t.netCode, netName := t.netName, width := sw }
    ∧ isNearestInt (round_half_even ((rotate90 (spec_unit t)).1 * spec_offset sw sep (n : Int) i))
        ((rotate90 (spec_unit t)).1 * spec_offset sw sep (n : Int) i)
    ∧ isNearestInt (round_half_even ((rotate90 (spec_unit t)).2 * spec_offset sw sep (n : Int) i))
        ((rotate90 (spec_unit t)).2 * spec_offset sw sep (n : Int) i) := by
  have h1 : (rotate90 (spec_unit t)).1 * spec_offset sw sep (n : Int) i
      = shift_vec_x t * offset_iu (sw * (n : Int) + sep * ((n : Int) - 1)) sw sep i := by
    unfold rotate90 spec_unit shift_vec_x unit_dy offset_iu spec_offset spec_groupWidth
    push_cast
    ring
  have h2 : (rotate90 (spec_unit t)).2 * spec_offset sw sep (n : Int) i
      = shift_vec_y t * offset_iu (sw * (n : Int) + sep * ((n : Int) - 1)) sw sep i := by
    unfold rotate90 spec_unit shift_vec_y unit_dx offset_iu spec_offset spec_groupWidth
    push_cast
    ring
  refine ⟨?_, ?_, ?_, ?_, ?_, ?_⟩
  · unfold spec_groupWidth
    ring
  · unfold offset_iu spec_offset spec_groupWidth
    push_cast
    ring
  · unfold shift_vec_x shift_vec_y rotate90 spec_unit unit_dx unit_dy
    rfl
  · rw [h1, h2]
    simp [newTracks, List.getElem?_map, List.getElem?_range, hi]
  · exact abs_sub_round_half_even _
  · exact abs_sub_round_half_even _

theorem splitter_follows_spec_geometry_witness :
    (1 ≤ 2 ∧ (0 : Int) < 140000 ∧ (0 : Int) ≤ 20000
      ∧ ¬(horizTrack.stop.x - horizTrack.start.x = 0 ∧ horizTrack.stop.y - horizTrack.start.y = 0)
      ∧ 0 < 2)
    ∧ (140000 * ((2 : ℕ) : Int) + 20000 * (((2 : ℕ) : Int) - 1) = spec_groupWidth 140000 20000 ((2 : ℕ) : Int)
      ∧ offset_iu (140000 * ((2 : ℕ) : Int) + 20000 * (((2 : ℕ) : Int) - 1)) 140000 20000 0
        = spec_offset 140000 20000 ((2 : ℕ) : Int) 0
      ∧ (shift_vec_x horizTrack, shift_vec_y horizTrack) = rotate90 (spec_unit horizTrack)
      ∧ (newTracks (140000 * ((2 : ℕ) : Int) + 20000 * (((2 : ℕ) : Int) - 1)) 140000 20000 2 horizTrack)[0]?
        = some { start := ⟨horizTrack.start.x + round_half_even ((rotate90 (spec_unit horizTrack)).1 * spec_offset 140000 20000 ((2 : ℕ) : Int) 0),
                          horizTrack.start.y + round_half_even ((rotate90 (spec_unit horizTrack)).2 * spec_offset 140000 20000 ((2 : ℕ) : Int) 0)⟩,
                 stop := ⟨horizTrack.stop.x + round_half_even ((rotate90 (spec_unit horizTrack)).1 * spec_offset 140000 20000 ((2 : ℕ) : Int) 0),
                         horizTrack.stop.y + round_half_even ((rotate90 (spec_unit horizTrack)).2 * spec_offset 140000 20000 ((2 : ℕ) : Int) 0)⟩,
                 layer := horizTrack.layer, netCode := horizTrack.netCode,
                 netName := horizTrack.netName, width := 140000 }
      ∧ isNearestInt (round_half_even ((rotate90 (spec_unit horizTrack)).1 * spec_offset 140000 20000 ((2 : ℕ) : Int) 0))
          ((rotate90 (spec_unit horizTrack)).1 * spec_offset 140000 20000 ((2 : ℕ) : Int) 0)
      ∧ isNearestInt (round_half_even ((rotate90 (spec_unit horizTrack)).2 * spec_offset 140000 20000 ((2 : ℕ) : Int) 0))
          ((rotate90 (spec_unit horizTrack)).2 * spec_offset 140000 20000 ((2 : ℕ) : Int) 0)) :=
  ⟨⟨by decide, by decide, by decide, by decide, by decide⟩,
   splitter_follows_spec_geometry 140000 20000 2 horizTrack 0
     (by decide) (by decide) (by decide) (by decide) (by decide)⟩

/-- C5: for a valid configuration and a non-degenerate segment, the
cluster has exactly splitCount new tracks, each with the layer, net code
and net name of the original and width equal to splitWidth, and the
processed board gains exactly one group containing exactly those
splitCount tracks (while they are also added to the board and the
original is removed). -/
theorem cluster_count_and_fields (sw sep : Int) (n : ℕ) (b : Board) (t : Track)
    (_hn : 1 ≤ n) (_hsw : 0 < sw) (_hsep : 0 ≤ sep)
    (hnd : ¬(t.stop.x - t.start.x = 0 ∧ t.stop.y - t.start.y = 0)) :
    (newTracks (sw * (n : Int) + sep * ((n : Int) - 1)) sw sep n t).length = n
    ∧ (∀ tr ∈ newTracks (sw * (n : Int) + sep * ((n : Int) - 1)) sw sep n t,
        tr.layer = t.layer ∧ tr.netCode = t.netCode ∧ tr.netName = t.netName ∧ tr.width = sw)
    ∧ processTrack (sw * (n : Int) + sep * ((n : Int) - 1)) sw sep n b t
      = .ok { tracks := (b.tracks ++ newTracks (sw * (n : Int) + sep * ((n : Int) - 1)) sw sep n t).erase t,
              groups := b.groups ++ [newTracks (sw * (n : Int) + sep * ((n : Int) - 1)) sw sep n t] } := by
  refine ⟨?_, ?_, ?_⟩
  · simp [newTracks]
  · intro tr htr
    simp only [newTracks, List.mem_map, List.mem_range] at htr
    obtain ⟨j, hj, rfl⟩ := htr
    exact ⟨rfl, rfl, rfl, rfl⟩
  · unfold processTrack
    rw [if_neg hnd]

theorem cluster_count_and_fields_witness :
    (1 ≤ 2 ∧ (0 : Int) < 140000 ∧ (0 : Int) ≤ 20000
      ∧ ¬(horizTrack.stop.x - horizTrack.start.x = 0 ∧ horizTrack.stop.y - horizTrack.start.y = 0))
    ∧ ((newTracks (140000 * ((2 : ℕ) : Int) + 20000 * (((2 : ℕ) : Int) - 1)) 140000 20000 2 horizTrack).length = 2
      ∧ (∀ tr ∈ newTracks (140000 * ((2 : ℕ) : Int) + 20000 * (((2 : ℕ) : Int) - 1)) 140000 20000 2 horizTrack,
          tr.layer = horizTrack.layer ∧ tr.netCode = horizTrack.netCode
            ∧ tr.netName = horizTrack.netName ∧ tr.width = 140000)
      ∧ processTrack (140000 * ((2 : ℕ) : Int) + 20000 * (((2 : ℕ) : Int) - 1)) 140000 20000 2
          ⟨[horizTrack], []⟩ horizTrack
        = .ok { tracks := ([horizTrack] ++ newTracks (140000 * ((2 : ℕ) : Int) + 20000 * (((2 : ℕ) : Int) - 1)) 140000 20000 2 horizTrack).erase horizTrack,
                groups := [] ++ [newTracks (140000 * ((2 : ℕ) : Int) + 20000 * (((2 : ℕ) : Int) - 1)) 140000 20000 2 horizTrack] }) :=
  ⟨⟨by decide, by decide, by decide, by decide⟩,
   cluster_count_and_fields 140000 20000 2 ⟨[horizTrack], []⟩ horizTrack
     (by decide) (by decide) (by decide) (by decide)⟩

/-- C10: for a valid configuration, a non-degenerate segment and any
cluster index i, the same rounded integer shift is added to both
endpoints of replacement i, so each replacement is an exact translate of
the original: its end minus its start equals the end minus the start of
the original, preserving direction and exact length. -/
theorem replacement_is_exact_translate (sw sep : Int) (n : ℕ) (t : Track) (i : ℕ)
    (_hn : 1 ≤ n) (_hsw : 0 < sw) (_hsep : 0 ≤ sep)
    (_hnd : ¬(t.stop.x - t.start.x = 0 ∧ t.stop.y - t.start.y = 0)) (hi : i < n) :
    (newTracks (sw * (n : Int) + sep * ((n : Int) - 1)) sw sep n t)[i]?
      = some { start := ⟨t.start.x + round_half_even (shift_vec_x t * offset_iu (sw * (n : Int) + sep * ((n : Int) - 1)) sw sep i),
                        t.start.y + round_half_even (shift_vec_y t * offset_iu (sw * (n : Int) + sep * ((n : Int) - 1)) sw sep i)⟩,
               stop := ⟨t.stop.x + round_half_even (shift_vec_x t * offset_iu (sw * (n : Int) + sep * ((n : Int) - 1)) sw sep i),
                       t.stop.y + round_half_even (shift_vec_y t * offset_iu (sw * (n : Int) + sep * ((n : Int) - 1)) sw sep i)⟩,
               layer := t.layer, netCode := t.netCode, netName := t.netName, width := sw }
    ∧ ∀ tr, (newTracks (sw * (n : Int) + sep * ((n : Int) - 1)) sw sep n t)[i]? = some tr →
        tr.stop.x - tr.start.x = t.stop.x - t.start.x
        ∧ tr.stop.y - tr.start.y = t.stop.y - t.start.y := by
  have helem : (newTracks (sw * (n : Int) + sep * ((n : Int) - 1)) sw sep n t)[i]?
      = some { start := ⟨t.start.x + round_half_even (shift_vec_x t * offset_iu (sw * (n : Int) + sep * ((n : Int) - 1)) sw sep i),
                        t.start.y + round_half_even (shift_vec_y t * offset_iu (sw * (n : Int) + sep * ((n : Int) - 1)) sw sep i)⟩,
               stop := ⟨t.stop.x + round_half_even (shift_vec_x t * offset_iu (sw * (n : Int) + sep * ((n : Int) - 1)) sw sep i),
                       t.stop.y + round_half_even (shift_vec_y t * offset_iu (sw * (n : Int) + sep * ((n : Int) - 1)) sw sep i)⟩,
               layer := t.layer, netCode := t.netCode, netName := t.netName, width := sw } := by
    simp [newTracks, List.getElem?_map, List.getElem?_range, hi]
  refine ⟨helem, ?_⟩
  intro tr htr
  rw [helem] at htr
  obtain rfl := Option.some_injective _ htr.symm
  constructor
  · simp only []
    ring
  · simp only []
    ring

theorem replacement_is_exact_translate_witness :
    (1 ≤ 2 ∧ (0 : Int) < 140000 ∧ (0 : Int) ≤ 20000
      ∧ ¬(horizTrack.stop.x - horizTrack.start.x = 0 ∧ horizTrack.stop.y - horizTrack.start.y = 0)
      ∧ 1 < 2)
    ∧ ((newTracks (140000 * ((2 : ℕ) : Int) + 20000 * (((2 : ℕ) : Int) - 1)) 140000 20000 2 horizTrack)[1]?
        = some { start := ⟨horizTrack.start.x + round_half_even (shift_vec_x horizTrack * offset_iu (140000 * ((2 : ℕ) : Int) + 20000 * (((2 : ℕ) : Int) - 1)) 140000 20000 1),
                          horizTrack.start.y + round_half_even (shift_vec_y horizTrack * offset_iu (140000 * ((2 : ℕ) : Int) + 20000 * (((2 : ℕ) : Int) - 1)) 140000 20000 1)⟩,
                 stop := ⟨horizTrack.stop.x + round_half_even (shift_vec_x horizTrack * offset_iu (140000 * ((2 : ℕ) : Int) + 20000 * (((2 : ℕ) : Int) - 1)) 140000 20000 1),
                         horizTrack.stop.y + round_half_even (shift_vec_y horizTrack * offset_iu (140000 * ((2 : ℕ) : Int) + 20000 * (((2 : ℕ) : Int) - 1)) 140000 20000 1)⟩,
                 layer := horizTrack.layer, netCode := horizTrack.netCode,
                 netName := horizTrack.netName, width := 140000 }
      ∧ ∀ tr, (newTracks (140000 * ((2 : ℕ) : Int) + 20000 * (((2 : ℕ) : Int) - 1)) 140000 20000 2 horizTrack)[1]? = some tr →
          tr.stop.x - tr.start.x = horizTrack.stop.x - horizTrack.start.x
          ∧ tr.stop.y - tr.start.y = horizTrack.stop.y - horizTrack.start.y) :=
  ⟨⟨by decide, by decide, by decide, by decide, by decide⟩,
   replacement_is_exact_translate 140000 20000 2 horizTrack 1
     (by decide) (by decide) (by decide) (by decide) (by decide)⟩
